import Mathlib

/-
  Verification development for the SEO Content Optimizer analysis engine
  (src/app.py).  The Python core is shallowly embedded over `List Char`
  (the model of Python `str`) and `ℚ` (the model of Python numbers).
  Fallible operations (Python `/`, which raises on a zero divisor) are
  modelled with `Option`.  Unicode-dependent Python behaviour (str.lower,
  \w, \s, str.splitlines) is modelled on the character sets listed below,
  which cover the whitespace set of CPython and the ASCII word characters.
-/

namespace SEO

/-- Whitespace set of Python's `str.isspace` / `re` `\s` (unicode mode). -/
def pyIsSpace (c : Char) : Bool :=
  c == ' ' || c == '\t' || c == '\n' || c == '\r' || c == '\x0b' || c == '\x0c' ||
  c == '\x1c' || c == '\x1d' || c == '\x1e' || c == '\x1f' || c == '\x85' || c == '\xa0' ||
  c == '\u1680' || ('\u2000' ≤ c && c ≤ '\u200A') || c == '\u2028' || c == '\u2029' ||
  c == '\u202F' || c == '\u205F' || c == '\u3000'

/-- Python `str.strip()`: drop leading and trailing whitespace. -/
def stripL (l : List Char) : List Char :=
  ((l.dropWhile pyIsSpace).reverse.dropWhile pyIsSpace).reverse

/-- The three smart-quote replacements of `normalize_text`
    (`’ -> '`, `“ -> "`, `” -> "`); Python `str.replace`
    of single characters acts characterwise. -/
def repQchar (c : Char) : Char :=
  if c = '\u2019' then '\'' else if c = '\u201C' then '"' else if c = '\u201D' then '"' else c

/-- `re.sub(r"\s+", " ", s)`: collapse every whitespace run to one space.
    The flag records whether we are inside a whitespace run. -/
def collGo : Bool → List Char → List Char
  | _, [] => []
  | prev, c :: cs =>
    if pyIsSpace c then (if prev then collGo true cs else ' ' :: collGo true cs)
    else c :: collGo false cs

/-- `normalize_text` of src/app.py: smart-quote replacement, whitespace
    collapsing, then strip. -/
def normalize_text (s : List Char) : List Char :=
  stripL (collGo false (s.map repQchar))

/-- Characters matched by `WORD_RE = [A-Za-z0-9']+`. -/
def isWordRE (c : Char) : Bool :=
  ('A' ≤ c && c ≤ 'Z') || ('a' ≤ c && c ≤ 'z') || ('0' ≤ c && c ≤ '9') || c == '\''

/-- Maximal runs of characters satisfying `p` (model of `re.findall` for a
    character-class-plus pattern, and of `str.split()` for `!pyIsSpace`).
    `cur` is the reversed run currently being read. -/
def runsGo (p : Char → Bool) : List Char → List Char → List (List Char)
  | [], cur => if cur.isEmpty then [] else [cur.reverse]
  | c :: cs, cur =>
    if p c then runsGo p cs (c :: cur)
    else if cur.isEmpty then runsGo p cs [] else cur.reverse :: runsGo p cs []

def runsBy (p : Char → Bool) (l : List Char) : List (List Char) := runsGo p l []

/-- `tokenize_words`: `WORD_RE.findall(text)`, lowercased (ASCII model of
    Python `str.lower`; only ASCII can enter a `WORD_RE` token). -/
def tokenize_words (t : List Char) : List (List Char) :=
  (runsBy isWordRE t).map (·.map Char.toLower)

def isSentPunct (c : Char) : Bool := c == '.' || c == '!' || c == '?'

/-- `re.split(r"[.!?]+(?:\s|$)", text)`.  `piece` is the reversed current
    piece, `pend` a reversed pending run of sentence punctuation whose
    delimiter status is not yet known. -/
def sentGo : List Char → List Char → List Char → List (List Char)
  | [], piece, pend => if pend.isEmpty then [piece.reverse] else [piece.reverse, []]
  | c :: cs, piece, pend =>
    if isSentPunct c then sentGo cs piece (c :: pend)
    else if pend.isEmpty then sentGo cs (c :: piece) []
    else if pyIsSpace c then piece.reverse :: sentGo cs [] []
    else sentGo cs (c :: (pend ++ piece)) []

/-- `split_sentences` of src/app.py. -/
def split_sentences (t : List Char) : List (List Char) :=
  ((sentGo (stripL t) [] []).map stripL).filter (fun p => !p.isEmpty)

/-- `re.sub(r"[^a-z]", "", word.lower())` (ASCII model). -/
def cleanWord (w : List Char) : List Char :=
  (w.map Char.toLower).filter (fun c => 'a' ≤ c && c ≤ 'z')

def isVowel (c : Char) : Bool :=
  c == 'a' || c == 'e' || c == 'i' || c == 'o' || c == 'u' || c == 'y'

/-- The vowel-group counting loop of `count_syllables`: one per vowel whose
    predecessor is not a vowel. -/
def syllableLoop : List Char → Bool → Nat
  | [], _ => 0
  | c :: cs, prev => (if isVowel c && !prev then 1 else 0) + syllableLoop cs (isVowel c)

/-- The silent-e adjustment of `count_syllables`. -/
def silentE (w : List Char) (syl : Nat) : Nat :=
  if w.getLast? == some 'e' && decide (1 < syl) &&
     !(w.reverse.take 2 == ['e', 'l'] || w.reverse.take 2 == ['e', 'y'])
  then syl - 1 else syl

/-- `count_syllables` of src/app.py. -/
def count_syllables (word : List Char) : Nat :=
  let w := cleanWord word
  if w.isEmpty then 0
  else max 1 (silentE w (syllableLoop w false))

/-- Python `/`: raises `ZeroDivisionError` on a zero divisor, so the model
    returns `none` there. -/
def qdiv? (a b : ℚ) : Option ℚ := if b = 0 then none else some (a / b)

def qfloor (x : ℚ) : ℤ := Int.fdiv x.num (x.den : ℤ)

/-- Python `round` on our exact-rational model: round half to even. -/
def pyRound (x : ℚ) : ℤ :=
  let f := qfloor x
  let r := x - (f : ℚ)
  if r < 1/2 then f else if 1/2 < r then f + 1 else if f % 2 = 0 then f else f + 1

/-- `round(x, n)`. -/
def roundTo (n : ℕ) (x : ℚ) : ℚ := (pyRound (x * (10 : ℚ) ^ n) : ℚ) / (10 : ℚ) ^ n

/-- `flesch_reading_ease` of src/app.py; each Python division goes through
    `qdiv?`.  `206.835`, `1.015` and `84.6` are written as exact fractions. -/
def flesch_reading_ease? (words sentences : List (List Char)) : Option ℚ :=
  if words.isEmpty || sentences.isEmpty then some 0
  else do
    let syllable_count : ℕ := (words.map count_syllables).sum
    let wps ← qdiv? (words.length : ℚ) ((max 1 sentences.length : ℕ) : ℚ)
    let spw ← qdiv? (syllable_count : ℚ) ((max 1 words.length : ℕ) : ℚ)
    pure (roundTo 1 ((206835 : ℚ) / 1000 - (1015 : ℚ) / 1000 * wps - (846 : ℚ) / 10 * spw))

/-- `score_band` of src/app.py. -/
def score_band (flesch : ℚ) : String :=
  if 90 ≤ flesch then "Very easy"
  else if 80 ≤ flesch then "Easy"
  else if 70 ≤ flesch then "Fairly easy"
  else if 60 ≤ flesch then "Standard"
  else if 50 ≤ flesch then "Fairly difficult"
  else if 30 ≤ flesch then "Difficult"
  else "Very difficult"

/-- Line-break set of Python `str.splitlines` (besides `\r\n`). -/
def isLineBreak (c : Char) : Bool :=
  c == '\n' || c == '\r' || c == '\x0b' || c == '\x0c' ||
  c == '\x1c' || c == '\x1d' || c == '\x1e' || c == '\x85' ||
  c == '\u2028' || c == '\u2029'

/-- Worker for `str.splitlines`; `acc` is the reversed current line.
    No entry is produced after a final line break. -/
def slGo : List Char → List Char → List (List Char)
  | [], acc => [acc.reverse]
  | '\r' :: '\n' :: rest, acc =>
    acc.reverse :: (if rest.isEmpty then [] else slGo rest [])
  | c :: rest, acc =>
    if isLineBreak c then acc.reverse :: (if rest.isEmpty then [] else slGo rest [])
    else slGo rest (c :: acc)

/-- Python `str.splitlines`. -/
def splitlines (l : List Char) : List (List Char) :=
  if l.isEmpty then [] else slGo l []

/-- Match of `^\s*(#{1,6})\s+\S+` against one line: the heading level, when
    the line is a markdown heading. -/
def mdLevel (line : List Char) : Option Nat :=
  let r := line.dropWhile pyIsSpace
  let n := (r.takeWhile (fun c => c == '#')).length
  let rest := r.drop n
  if 1 ≤ n ∧ n ≤ 6 ∧ (rest.head?.map pyIsSpace).getD false = true ∧
     ¬(rest.dropWhile pyIsSpace).isEmpty
  then some n else none

/-- Key `f"h{level}"`. -/
def hkey (n : Nat) : String := "h" ++ toString n

def mdKey (line : List Char) : Option String := (mdLevel line).map hkey

/-- Word characters of regex `\b` (ASCII model of `\w`). -/
def isWordB : Option Char → Bool
  | none => false
  | some c => c.isAlphanum || c == '_'

/-- Count of `re.findall(fr"<h{level}\b", text, re.IGNORECASE)`: occurrences
    of `<` then `h`/`H` then the level digit followed by a non-word
    character or the end. -/
def htmlGo (d : Char) : List Char → Nat
  | [] => 0
  | '<' :: rest =>
    (match rest with
     | c :: d2 :: rest2 =>
       if (c == 'h' || c == 'H') && d2 == d && !isWordB rest2.head? then 1 else 0
     | _ => 0) + htmlGo d rest
  | _ :: rest => htmlGo d rest

def htmlCount (level : Nat) (t : List Char) : Nat := htmlGo (Nat.digitChar level) t

/-- `Counter[k] += 1` on the insertion-ordered association-list model of a
    Python `Counter`. -/
def cbump [DecidableEq α] : List (α × Nat) → α → List (α × Nat)
  | [], k => [(k, 1)]
  | (a, v) :: rest, k =>
    if a = k then (a, v + 1) :: rest else (a, v) :: cbump rest k

/-- `Counter[k] += n` (used by `Counter.update`). -/
def cbumpBy [DecidableEq α] : List (α × Nat) → α → Nat → List (α × Nat)
  | [], k, n => [(k, n)]
  | (a, v) :: rest, k, n =>
    if a = k then (a, v + n) :: rest else (a, v) :: cbumpBy rest k n

/-- `counter[k] = v` (dict assignment). -/
def cset [DecidableEq α] : List (α × Nat) → α → Nat → List (α × Nat)
  | [], k, v => [(k, v)]
  | (a, b) :: rest, k, v =>
    if a = k then (a, v) :: rest else (a, b) :: cset rest k v

/-- `counter.get(k, 0)`. -/
def dget [DecidableEq α] : List (α × Nat) → α → Nat
  | [], _ => 0
  | (a, v) :: rest, k => if a = k then v else dget rest k

/-- `Counter.update(other)`: add the counts of `other` into `self`. -/
def cupdate [DecidableEq α] (self other : List (α × Nat)) : List (α × Nat) :=
  other.foldl (fun acc p => cbumpBy acc p.1 p.2) self

/-- `Counter(words)`. -/
def counterOf [DecidableEq α] (ws : List α) : List (α × Nat) :=
  ws.foldl cbump []

/-- The per-line markdown Counter of `extract_headings`. -/
def md_counts (t : List Char) : List (String × Nat) :=
  (splitlines t).foldl
    (fun c line => match mdKey line with | some k => cbump c k | none => c) []

/-- The tag Counter of `extract_headings`: for each level 1..6, set
    `html_counts[f"h{level}"]` to the `findall` count. -/
def html_counts (t : List Char) : List (String × Nat) :=
  (List.range 6).foldl (fun c i => cset c (hkey (i + 1)) (htmlCount (i + 1) t)) []

/-- `extract_headings` of src/app.py: merge both Counters additively and
    read off all six levels with default 0. -/
def extract_headings (t : List Char) : List (String × Nat) :=
  let combined := cupdate (cupdate [] (md_counts t)) (html_counts t)
  (List.range 6).map (fun i => (hkey (i + 1), dget combined (hkey (i + 1))))

/-- Stable insertion (descending by count) used to model the stable sort
    underlying `Counter.most_common`. -/
def insDesc (p : α × Nat) : List (α × Nat) → List (α × Nat)
  | [] => [p]
  | q :: qs => if q.2 ≤ p.2 then p :: q :: qs else q :: insDesc p qs

/-- `Counter(words).most_common()`: the counter items (insertion order)
    stably sorted by count, descending. -/
def mostCommon (words : List (List Char)) : List (List Char × Nat) :=
  (counterOf words).foldr insDesc []

/-- Python `str.isdigit` restricted to the characters a token can hold. -/
def isDigits (w : List Char) : Bool :=
  !w.isEmpty && w.all (fun c => '0' ≤ c && c ≤ '9')

/-- The filter of the `top_words` comprehension in `keyword_metrics`. -/
def keepTerm (p : List Char × Nat) : Bool :=
  decide (2 < p.1.length) && !isDigits p.1

/-- One step of the scan behind `re.findall(rf"\b{pat}\b", s)` for a literal
    (escaped) pattern: `prev` is the character just before the current
    position.  On a match the scan resumes after it (findall matches are
    non-overlapping); fuel decreases once per consumed character. -/
def phraseGo (pat : List Char) : Nat → Option Char → List Char → Nat
  | 0, _, _ => 0
  | _ + 1, _, [] => 0
  | fuel + 1, prev, c :: cs =>
    if !pat.isEmpty && pat.isPrefixOf (c :: cs) &&
       (isWordB prev != isWordB pat.head?) &&
       (isWordB pat.getLast? != isWordB ((c :: cs).drop pat.length).head?)
    then 1 + phraseGo pat fuel pat.getLast? ((c :: cs).drop pat.length)
    else phraseGo pat fuel (some c) cs

/-- Number of boundary-anchored, non-overlapping matches of the literal
    phrase `pat` in `s` (both already lowercase). -/
def countPhrase (pat s : List Char) : Nat := phraseGo pat (s.length + 1) none s

/-- `related.split(",")`. -/
def splitCommaGo : List Char → List Char → List (List Char)
  | [], acc => [acc.reverse]
  | c :: cs, acc =>
    if c = ',' then acc.reverse :: splitCommaGo cs []
    else splitCommaGo cs (c :: acc)

/-- `[r.strip().lower() for r in related.split(",") if r.strip()]`. -/
def relatedList (related : List Char) : List (List Char) :=
  (splitCommaGo related []).filterMap (fun r =>
    let s := stripL r
    if s.isEmpty then none else some (s.map Char.toLower))

structure KW where
  target_keyword : List Char
  target_count : Nat
  target_density_percent : ℚ
  related_keywords : List (List Char)
  related_counts : List (List Char × Nat)
  top_terms : List (List Char × Nat)
  deriving DecidableEq, Repr

structure KWFlags where
  has_target : Bool
  density_low : Bool
  density_high : Bool
  deriving DecidableEq, Repr

/-- `keyword_metrics` of src/app.py.  The density division goes through
    `qdiv?` exactly when the code divides (`total_words > 0`). -/
def keyword_metrics? (words : List (List Char)) (target related : List Char) :
    Option (KW × KWFlags) := do
  let total_words := words.length
  let freq := counterOf words
  let target_clean := (stripL target).map Char.toLower
  let related_list := relatedList related
  let target_phrase_count :=
    if !target_clean.isEmpty then countPhrase target_clean (List.intercalate [' '] words)
    else 0
  let density ← if 0 < total_words then
      (qdiv? (target_phrase_count : ℚ) (total_words : ℚ)).map (· * 100)
    else some 0
  let related_counts := related_list.map (fun r => (r, dget freq r))
  let top_words := ((mostCommon words).take 25).filter keepTerm
  let kw : KW := {
    target_keyword := target_clean
    target_count := target_phrase_count
    target_density_percent := roundTo 2 density
    related_keywords := related_list
    related_counts := related_counts
    top_terms := top_words.take 15 }
  let flags : KWFlags := {
    has_target := !target_clean.isEmpty && decide (0 < target_phrase_count)
    density_low := !target_clean.isEmpty && decide (density < 1/2)
    density_high := !target_clean.isEmpty && decide (3 < density) }
  pure (kw, flags)

/-- Scanner state for `re.split(r"\n\s*\n", text)`:
    `norm piece` — ordinary text, `piece` the reversed current piece;
    `cand piece run` — a `\n` was seen, `run` the reversed whitespace
    (newline-free) read after it, no second `\n` yet;
    `hit tail` — the pattern matched (the piece was already emitted) and the
    delimiter currently ends at the last `\n` seen, `tail` the reversed
    whitespace read after it. -/
inductive ParaSt where
  | norm (piece : List Char)
  | cand (piece run : List Char)
  | hit (tail : List Char)

/-- Fuel-indexed scanner for `re.split(r"\n\s*\n", text)`; the greedy `\s*`
    with backtracking makes the delimiter end at the last `\n` of the
    whitespace run that follows the opening `\n`. -/
def paraGo : Nat → List Char → ParaSt → List (List Char)
  | 0, _, _ => []
  | _ + 1, [], .norm piece => [piece.reverse]
  | _ + 1, [], .cand piece run => [(run ++ '\n' :: piece).reverse]
  | _ + 1, [], .hit tail => [tail.reverse]
  | f + 1, c :: cs, .norm piece =>
    if c = '\n' then paraGo f cs (.cand piece [])
    else paraGo f cs (.norm (c :: piece))
  | f + 1, c :: cs, .cand piece run =>
    if c = '\n' then piece.reverse :: paraGo f cs (.hit [])
    else if pyIsSpace c then paraGo f cs (.cand piece (c :: run))
    else paraGo f cs (.norm (c :: (run ++ '\n' :: piece)))
  | f + 1, c :: cs, .hit tail =>
    if c = '\n' then paraGo f cs (.hit [])
    else if pyIsSpace c then paraGo f cs (.hit (c :: tail))
    else paraGo f cs (.norm (c :: tail))

/-- `re.split(r"\n\s*\n", text)`. -/
def paraSplit (l : List Char) : List (List Char) :=
  paraGo (l.length + 1) l (.norm [])

def msgDepth : String :=
  "Add more depth. Aim for at least 300 to 800 words for most posts."
def msgTrim : String :=
  "Consider trimming or adding subheadings. Very long posts need strong structure."
def msgShorten : String :=
  "Shorten sentences. Average sentence length is a bit high."
def msgAddH1 : String :=
  "Add one clear H1 title (or a top-level heading) to define the page topic."
def msgOneH1 : String :=
  "Use only one H1. Convert extra H1s into H2s."
def msgAddH2 : String :=
  "Add H2 subheadings to break up sections and improve scan-ability."
def msgAddH3 : String :=
  "Add some H3 subheadings for details inside each section."
def msgInclKw : String :=
  "Include your target keyword at least once, ideally in the first 100 words."
def msgDenLow : String :=
  "Target keyword density looks low. Add it naturally 1 to 3 times."
def msgDenHigh : String :=
  "Target keyword density looks high. Reduce repetition and use synonyms."
def msgAddTarget : String :=
  "Add a target keyword to get keyword density and placement feedback."
def msgAddTitle : String :=
  "Add a meta title. Keep it clear and specific."
def msgTitleShort : String :=
  "Meta title may be short. Many titles perform well around 45 to 60 characters."
def msgTitleLong : String :=
  "Meta title may be long. Consider shortening to about 60 characters."
def msgKwTitle : String :=
  "Try including the target keyword in the meta title, if it fits naturally."
def msgAddDesc : String :=
  "Add a meta description. Summarize the value in 1 to 2 sentences."
def msgDescShort : String :=
  "Meta description may be short. Many descriptions perform well around 120 to 160 characters."
def msgDescLong : String :=
  "Meta description may be long. Consider trimming to about 160 characters."
def msgKwDesc : String :=
  "Try including the target keyword in the meta description, if it fits naturally."
def msgParas : String :=
  "Break up long paragraphs. Aim for tighter blocks so it’s easier to read."

/-- `make_suggestions` of src/app.py.  Sequential `append`s become list
    concatenation in rule order; the single division (average sentence
    length) goes through `qdiv?` under the code's `sentence_count > 0`
    guard. -/
def make_suggestions? (text : List Char) (words sentences : List (List Char))
    (headings : List (String × Nat)) (kw : KW) (kw_flags : KWFlags)
    (meta_title meta_desc : List Char) : Option (List String) := do
  let word_count := words.length
  let sentence_count := sentences.length
  let s1 : List String :=
    if word_count < 300 then [msgDepth]
    else if 2000 < word_count then [msgTrim]
    else []
  let s2 : List String ←
    if 0 < sentence_count then
      (qdiv? (word_count : ℚ) (sentence_count : ℚ)).map
        (fun avg => if 22 < avg then [msgShorten] else [])
    else pure []
  let s3 : List String :=
    if dget headings "h1" = 0 then [msgAddH1]
    else if 1 < dget headings "h1" then [msgOneH1]
    else []
  let s4 : List String := if dget headings "h2" = 0 then [msgAddH2] else []
  let s5 : List String :=
    if dget headings "h3" = 0 ∧ 700 ≤ word_count then [msgAddH3] else []
  let target := kw.target_keyword
  let s6 : List String :=
    if !target.isEmpty then
      (if !kw_flags.has_target then [msgInclKw] else []) ++
      (if kw_flags.density_low then [msgDenLow] else []) ++
      (if kw_flags.density_high then [msgDenHigh] else [])
    else [msgAddTarget]
  let mt := stripL meta_title
  let mdv := stripL meta_desc
  let s7 : List String :=
    if mt.isEmpty then [msgAddTitle]
    else
      (if mt.length < 35 then [msgTitleShort] else []) ++
      (if 65 < mt.length then [msgTitleLong] else []) ++
      (if !target.isEmpty && !(decide (target <:+: mt.map Char.toLower)) then [msgKwTitle]
       else [])
  let s8 : List String :=
    if mdv.isEmpty then [msgAddDesc]
    else
      (if mdv.length < 90 then [msgDescShort] else []) ++
      (if 170 < mdv.length then [msgDescLong] else []) ++
      (if !target.isEmpty && !(decide (target <:+: mdv.map Char.toLower)) then [msgKwDesc]
       else [])
  let paras := ((paraSplit text).map stripL).filter (fun p => !p.isEmpty)
  let long_paras := paras.filter (fun p => 110 < (runsBy (fun c => !pyIsSpace c) p).length)
  let s9 : List String := if !long_paras.isEmpty then [msgParas] else []
  pure (s1 ++ s2 ++ s3 ++ s4 ++ s5 ++ s6 ++ s7 ++ s8 ++ s9)

structure Stats where
  word_count : Nat
  character_count : Nat
  sentence_count : Nat
  paragraph_count : Nat
  deriving DecidableEq, Repr

structure Readability where
  flesch_reading_ease : ℚ
  level : String
  avg_words_per_sentence : ℚ
  deriving DecidableEq, Repr

structure AnalysisResult where
  stats : Stats
  keywords : KW
  headings : List (String × Nat)
  readability : Readability
  suggestions : List String
  deriving DecidableEq, Repr

/-- `analyze` of src/app.py over validated string fields (a missing or null
    payload field is already the empty string here, as in the code). -/
def analyze? (content target_keyword related_keywords meta_title meta_description : String) :
    Option AnalysisResult := do
  let raw_text := content.data
  let text := normalize_text raw_text
  let words := tokenize_words text
  let sentences := split_sentences text
  let word_count := words.length
  let char_count := text.length
  let sentence_count := sentences.length
  let paragraph_count := ((paraSplit raw_text).filter (fun p => !(stripL p).isEmpty)).length
  let avgq ← qdiv? (word_count : ℚ) ((max 1 sentence_count : ℕ) : ℚ)
  let avg_words_per_sentence := roundTo 2 avgq
  let flesch ← flesch_reading_ease? words sentences
  let readability : Readability := {
    flesch_reading_ease := flesch
    level := score_band flesch
    avg_words_per_sentence := avg_words_per_sentence }
  let heading_counts := extract_headings raw_text
  let (kw, kw_flags) ← keyword_metrics? words target_keyword.data related_keywords.data
  let suggestions ← make_suggestions? raw_text words sentences heading_counts kw kw_flags
    meta_title.data meta_description.data
  pure {
    stats := {
      word_count := word_count
      character_count := char_count
      sentence_count := sentence_count
      paragraph_count := paragraph_count }
    keywords := kw
    headings := heading_counts
    readability := readability
    suggestions := suggestions }

/-- Markdown-detected heading count of one level: how many lines match
    the markdown heading pattern at that level (the direct reading of the
    spec's "markdown-detected count"). -/
def mdDirect (t : List Char) (lv : Nat) : Nat :=
  (splitlines t).countP (fun line => mdLevel line == some lv)

/-- Total of the values stored under key `k` (coincides with `dget` on
    counters with unique keys, which all counters built here have). -/
def entrySum [DecidableEq α] (c : List (α × Nat)) (k : α) : Nat :=
  (c.map (fun p => if p.1 = k then p.2 else 0)).sum

/-- The default used to read fields out of `analyze?` results in claims. -/
def emptyResult : AnalysisResult := {
  stats := { word_count := 0, character_count := 0, sentence_count := 0, paragraph_count := 0 }
  keywords := { target_keyword := [], target_count := 0, target_density_percent := 0,
                related_keywords := [], related_counts := [], top_terms := [] }
  headings := []
  readability := { flesch_reading_ease := 0, level := "", avg_words_per_sentence := 0 }
  suggestions := [] }

/-- Modelled from the claim C2 wording: rank all tokens by frequency, keep
    only terms of length > 2 that are not purely numeric, take the top 25 of
    those, then report the first 15. -/
def claimTopTerms (words : List (List Char)) : List (List Char × Nat) :=
  ((((mostCommon words).filter keepTerm).take 25).take 15)

/-- The token sequence refuting C2: twenty-five distinct two-letter tokens
    followed by one three-letter token, all of count one. -/
def c2Tokens : List (List Char) :=
  ["aa", "ab", "ac", "ad", "ae", "af", "ag", "ah", "ai", "aj", "ak", "al", "am",
   "an", "ao", "ap", "aq", "ar", "as", "at", "au", "av", "aw", "ax", "ay",
   "abc"].map String.data

/-- A whitespace character is the plain space (only shape whitespace can
    take after collapsing). -/
def okc (c : Char) : Bool := !pyIsSpace c || (c == ' ')

/-- No whitespace pair at the junction of `c` and the head of the list. -/
def noAdjHead (c : Char) : List Char → Bool
  | [] => true
  | d :: _ => !(pyIsSpace c && pyIsSpace d)

/-- Collapsed form: every whitespace character is a single `' '` and no two
    adjacent characters are both whitespace. -/
def collapsedB : List Char → Bool
  | [] => true
  | c :: cs => okc c && noAdjHead c cs && collapsedB cs

/-- The three smart-quote characters replaced by `normalize_text`. -/
def isSmart (c : Char) : Bool :=
  c == '\u2019' || c == '\u201C' || c == '\u201D'

theorem qdiv?_eq_some {a b : ℚ} (h : b ≠ 0) : qdiv? a b = some (a / b) := by
  simp [qdiv?, h]

theorem qdiv?_isSome {a b : ℚ} (h : b ≠ 0) : (qdiv? a b).isSome := by
  simp [qdiv?, h]

/-- C9: `count_syllables` returns 0 for the empty string and whenever the
    letters-only reduction is empty, 2 for "simple", 1 for "the", and at
    least 1 for every word whose letters-only reduction is nonempty. -/
theorem claim_c9_count_syllables :
    count_syllables [] = 0 ∧
    (∀ w : List Char, cleanWord w = [] → count_syllables w = 0) ∧
    count_syllables "simple".data = 2 ∧
    count_syllables "the".data = 1 ∧
    (∀ w : List Char, cleanWord w ≠ [] → 1 ≤ count_syllables w) := by
  refine ⟨by decide, ?_, by decide, by decide, ?_⟩
  · intro w h
    simp [count_syllables, h]
  · intro w h
    rw [count_syllables]
    simp only [List.isEmpty_iff, h, if_false]
    exact Nat.le_max_left 1 _

/-- Witness for C9: concrete inputs discharging both hypotheses. -/
theorem claim_c9_witness :
    count_syllables "!!".data = 0 ∧ 1 ≤ count_syllables "xyz".data := by
  have h1 := claim_c9_count_syllables.2.1 "!!".data (by decide)
  have h2 := claim_c9_count_syllables.2.2.2.2 "xyz".data (by decide)
  exact ⟨h1, h2⟩

theorem dget_cbump [DecidableEq α] (c : List (α × Nat)) (w k : α) :
    dget (cbump c w) k = dget c k + if w = k then 1 else 0 := by
  induction c with
  | nil =>
    by_cases h : w = k <;> simp [cbump, dget, h]
  | cons p rest ih =>
    obtain ⟨a, v⟩ := p
    rw [cbump]
    by_cases haw : a = w
    · subst haw
      by_cases hak : a = k <;> simp [dget, hak]
    · have hwk : a = k → w ≠ k := fun hk he => haw (by rw [hk, he])
      by_cases hak : a = k
      · subst hak
        simp [dget, haw, hwk rfl]
      · simp [dget, haw, hak, ih]

theorem dget_counterOf (ws : List (List Char)) (k : List Char) :
    dget (counterOf ws) k = ws.count k := by
  suffices h : ∀ acc, dget (List.foldl cbump acc ws) k = dget acc k + ws.count k by
    simpa [counterOf, dget] using h []
  induction ws with
  | nil => simp
  | cons w ws ih =>
    intro acc
    rw [List.foldl_cons, ih, dget_cbump, List.count_cons]
    by_cases h : w = k <;> simp [h] <;> omega

theorem natCast_pos_ne_zero {n : ℕ} (h : 0 < n) : ((n : ℚ)) ≠ 0 :=
  Nat.cast_ne_zero.mpr h.ne'

theorem natCast_max_ne_zero (n : ℕ) : (((max 1 n : ℕ) : ℚ)) ≠ 0 :=
  natCast_pos_ne_zero (Nat.lt_of_lt_of_le Nat.zero_lt_one (Nat.le_max_left 1 n))

/-- C2 (counterexample): on twenty-five distinct two-letter tokens followed
    by one three-letter token, the code's `top_terms` is empty while the
    claimed filter-then-take-25 algorithm reports the three-letter token. -/
theorem claim_c2_counterexample :
    (keyword_metrics? c2Tokens [] []).map (fun p => p.1.top_terms) = some [] ∧
    claimTopTerms c2Tokens = [("abc".data, 1)] ∧
    ¬ ((keyword_metrics? c2Tokens [] []).map (fun p => p.1.top_terms) =
       some (claimTopTerms c2Tokens)) := by
  have h1 : (keyword_metrics? c2Tokens [] []).map (fun p => p.1.top_terms) = some [] := by
    with_unfolding_all rfl
  have h2 : claimTopTerms c2Tokens = [("abc".data, 1)] := by
    with_unfolding_all rfl
  refine ⟨h1, h2, fun h => ?_⟩
  rw [h1, h2] at h
  exact absurd h (by decide)

/-- C2 (amended): `top_terms` takes the top 25 of the frequency ranking
    FIRST, then filters to length > 2 and non-numeric, then reports the
    first 15 — the filter runs after the top-25 cut, not before it. -/
theorem claim_c2_amended (words : List (List Char)) (target related : List Char) :
    (keyword_metrics? words target related).map (fun p => p.1.top_terms) =
      some ((((mostCommon words).take 25).filter keepTerm).take 15) := by
  rw [keyword_metrics?]
  by_cases h : 0 < words.length
  · simp [h, qdiv?_eq_some (natCast_pos_ne_zero h)]
  · simp [h]

/-- C7: each related term's count is an exact single-token frequency lookup
    (no phrase matching); in particular related "cat" against content
    "category cat cat" reports 2, not 3. -/
theorem claim_c7_related_counts :
    (∀ (words : List (List Char)) (target related : List Char),
      (keyword_metrics? words target related).map (fun p => p.1.related_counts) =
        some ((relatedList related).map (fun r => (r, words.count r)))) ∧
    (keyword_metrics? (tokenize_words "category cat cat".data) [] "cat".data).map
        (fun p => p.1.related_counts) = some [("cat".data, 2)] := by
  constructor
  · intro words target related
    have hmap : (relatedList related).map (fun r => (r, dget (counterOf words) r)) =
        (relatedList related).map (fun r => (r, words.count r)) := by
      exact List.map_congr_left (fun r _ => by rw [dget_counterOf])
    rw [keyword_metrics?]
    by_cases h : 0 < words.length
    · simp [h, qdiv?_eq_some (natCast_pos_ne_zero h), hmap]
    · simp [h, hmap]
  · with_unfolding_all rfl

theorem flesch?_isSome (ws ss : List (List Char)) :
    ∃ v, flesch_reading_ease? ws ss = some v := by
  rw [flesch_reading_ease?]
  by_cases h : (ws.isEmpty || ss.isEmpty) = true
  · exact ⟨0, by simp [h]⟩
  · simp only [if_neg h, qdiv?_eq_some (natCast_max_ne_zero ss.length),
      qdiv?_eq_some (natCast_max_ne_zero ws.length), Option.some_bind]
    exact ⟨_, rfl⟩

theorem km_isSome (ws : List (List Char)) (t r : List Char) :
    ∃ v, keyword_metrics? ws t r = some v := by
  rw [keyword_metrics?]
  by_cases h : 0 < ws.length
  · simp only [if_pos h, qdiv?_eq_some (natCast_pos_ne_zero h), Option.map_some,
      Option.some_bind]
    exact ⟨_, rfl⟩
  · simp only [if_neg h, Option.some_bind]
    exact ⟨_, rfl⟩

theorem ms_isSome (text : List Char) (ws ss : List (List Char))
    (hd : List (String × Nat)) (kw : KW) (fl : KWFlags) (mt mdd : List Char) :
    ∃ v, make_suggestions? text ws ss hd kw fl mt mdd = some v := by
  rw [make_suggestions?]
  by_cases h : 0 < ss.length
  · simp only [if_pos h, qdiv?_eq_some (natCast_pos_ne_zero h), Option.map_some,
      Option.some_bind]
    exact ⟨_, rfl⟩
  · simp only [if_neg h, Option.some_bind]
    exact ⟨_, rfl⟩

/-- C3: on string-typed inputs `analyze` always completes: every division
    the code performs is guarded, so the `Option`-threaded model always
    returns `some`. -/
theorem claim_c3_no_exception (c t r mt md : String) : (analyze? c t r mt md).isSome := by
  obtain ⟨fv, hf⟩ := flesch?_isSome (tokenize_words (normalize_text c.data))
    (split_sentences (normalize_text c.data))
  obtain ⟨⟨kw, fl⟩, hk⟩ := km_isSome (tokenize_words (normalize_text c.data)) t.data r.data
  obtain ⟨sv, hs⟩ := ms_isSome c.data (tokenize_words (normalize_text c.data))
    (split_sentences (normalize_text c.data)) (extract_headings c.data) kw fl mt.data md.data
  rw [analyze?]
  simp only [qdiv?_eq_some
      (natCast_max_ne_zero (split_sentences (normalize_text c.data)).length),
    Option.some_bind, hf, hk]
  simp [hs]

/-- C5: the Flesch score is exactly 0 for an empty token or sentence
    sequence; otherwise it is the unclamped Flesch formula rounded to one
    decimal place. -/
theorem claim_c5_flesch :
    (∀ words sentences : List (List Char), words = [] ∨ sentences = [] →
        flesch_reading_ease? words sentences = some 0) ∧
    (∀ words sentences : List (List Char), words ≠ [] → sentences ≠ [] →
        flesch_reading_ease? words sentences =
          some (roundTo 1 ((206835 : ℚ) / 1000
            - (1015 : ℚ) / 1000 * ((words.length : ℚ) / (sentences.length : ℚ))
            - (846 : ℚ) / 10 *
                (((words.map count_syllables).sum : ℚ) / (words.length : ℚ))))) := by
  constructor
  · intro words sentences h
    rcases h with rfl | rfl <;> simp [flesch_reading_ease?]
  · intro words sentences h1 h2
    have hw : 0 < words.length := List.length_pos.mpr h1
    have hs : 0 < sentences.length := List.length_pos.mpr h2
    have mw : max 1 words.length = words.length := Nat.max_eq_right hw
    have ms : max 1 sentences.length = sentences.length := Nat.max_eq_right hs
    have e1 : words.isEmpty = false := by simp [h1]
    have e2 : sentences.isEmpty = false := by simp [h2]
    rw [flesch_reading_ease?]
    simp [e1, e2, mw, ms, qdiv?_eq_some (natCast_pos_ne_zero hw),
      qdiv?_eq_some (natCast_pos_ne_zero hs)]

/-- Witness for C5: a one-word, one-sentence input whose score is negative,
    showing the formula value is passed through unclamped. -/
theorem claim_c5_witness :
    flesch_reading_ease? ["banana".data] ["banana".data] = some (-48) := by
  rw [claim_c5_flesch.2 ["banana".data] ["banana".data] (by decide) (by decide)]
  with_unfolding_all rfl

/-- A character that is neither whitespace nor sentence punctuation; such a
    character always survives into some sentence piece. -/
def goodChar (c : Char) : Bool := !pyIsSpace c && !isSentPunct c

theorem wordRE_not_space {c : Char} (h : isWordRE c = true) : pyIsSpace c = false := by
  cases hb : pyIsSpace c
  · rfl
  · exfalso
    rw [isWordRE] at h
    simp only [Bool.or_eq_true, Bool.and_eq_true, decide_eq_true_eq, beq_iff_eq] at h
    rcases h with ((⟨h1, h2⟩ | ⟨h1, h2⟩) | ⟨h1, h2⟩) | rfl
    · have a1 : 65 ≤ c.val.toNat := h1
      have a2 : c.val.toNat ≤ 90 := h2
      rw [pyIsSpace] at hb
      simp only [Bool.or_eq_true, beq_iff_eq, Bool.and_eq_true, decide_eq_true_eq] at hb
      rcases hb with ((((((((((((((((((hb) | hb) | hb) | hb) | hb) | hb) | hb) | hb) | hb) | hb) | hb) | hb) | hb) | hb) | hb) | hb) | hb) | hb) | hb
      all_goals first
        | (subst hb
           first
             | exact absurd a1 (by decide)
             | exact absurd a2 (by decide))
        | (have n1 : 8192 ≤ c.val.toNat := hb.1
           have n2 : c.val.toNat ≤ 8202 := hb.2
           omega)
    · have a1 : 97 ≤ c.val.toNat := h1
      have a2 : c.val.toNat ≤ 122 := h2
      rw [pyIsSpace] at hb
      simp only [Bool.or_eq_true, beq_iff_eq, Bool.and_eq_true, decide_eq_true_eq] at hb
      rcases hb with ((((((((((((((((((hb) | hb) | hb) | hb) | hb) | hb) | hb) | hb) | hb) | hb) | hb) | hb) | hb) | hb) | hb) | hb) | hb) | hb) | hb
      all_goals first
        | (subst hb
           first
             | exact absurd a1 (by decide)
             | exact absurd a2 (by decide))
        | (have n1 : 8192 ≤ c.val.toNat := hb.1
           have n2 : c.val.toNat ≤ 8202 := hb.2
           omega)
    · have a1 : 48 ≤ c.val.toNat := h1
      have a2 : c.val.toNat ≤ 57 := h2
      rw [pyIsSpace] at hb
      simp only [Bool.or_eq_true, beq_iff_eq, Bool.and_eq_true, decide_eq_true_eq] at hb
      rcases hb with ((((((((((((((((((hb) | hb) | hb) | hb) | hb) | hb) | hb) | hb) | hb) | hb) | hb) | hb) | hb) | hb) | hb) | hb) | hb) | hb) | hb
      all_goals first
        | (subst hb
           first
             | exact absurd a1 (by decide)
             | exact absurd a2 (by decide))
        | (have n1 : 8192 ≤ c.val.toNat := hb.1
           have n2 : c.val.toNat ≤ 8202 := hb.2
           omega)
    · exact absurd hb (by decide)

theorem wordRE_not_punct {c : Char} (h : isWordRE c = true) : isSentPunct c = false := by
  cases hb : isSentPunct c
  · rfl
  · exfalso
    rw [isSentPunct] at hb
    simp only [Bool.or_eq_true, beq_iff_eq] at hb
    rcases hb with (hb | hb) | hb <;> (subst hb; exact absurd h (by decide))

theorem runsGo_nil_of_none (p : Char → Bool) (l : List Char)
    (h : ∀ c ∈ l, p c = false) : runsGo p l [] = [] := by
  induction l with
  | nil => rfl
  | cons c cs ih =>
    rw [runsGo]
    simp [h c (List.mem_cons_self c cs),
      ih fun d hd => h d (List.mem_cons_of_mem c hd)]

theorem exists_wordChar_of_tokens {t : List Char} (h : tokenize_words t ≠ []) :
    ∃ c ∈ t, isWordRE c = true := by
  by_contra hc
  push_neg at hc
  apply h
  rw [tokenize_words, runsBy, runsGo_nil_of_none]
  · rfl
  · intro c hm
    simpa using hc c hm

theorem mem_dropWhile_of_mem {p : Char → Bool} {l : List Char} {c : Char}
    (hm : c ∈ l) (hp : p c = false) : c ∈ l.dropWhile p := by
  induction l with
  | nil => cases hm
  | cons a as ih =>
    rw [List.dropWhile_cons]
    split
    · rcases List.mem_cons.mp hm with rfl | hm2
      · simp_all
      · exact ih hm2
    · exact hm

theorem mem_stripL_of_mem {l : List Char} {c : Char} (hm : c ∈ l)
    (hp : pyIsSpace c = false) : c ∈ stripL l := by
  rw [stripL]
  exact List.mem_reverse.mpr (mem_dropWhile_of_mem
    (List.mem_reverse.mpr (mem_dropWhile_of_mem hm hp)) hp)

theorem sentGo_good : ∀ (l piece pend : List Char),
    ((∃ c ∈ l, goodChar c = true) ∨ (∃ c ∈ piece, goodChar c = true)) →
    ∃ p ∈ sentGo l piece pend, ∃ c ∈ p, goodChar c = true := by
  intro l
  induction l with
  | nil =>
    intro piece pend h
    rcases h with ⟨c, hc, _⟩ | ⟨c, hc, hg⟩
    · cases hc
    · refine ⟨piece.reverse, ?_, c, List.mem_reverse.mpr hc, hg⟩
      rw [sentGo]
      split <;> simp
  | cons a as ih =>
    intro piece pend h
    rw [sentGo]
    by_cases h1 : isSentPunct a = true
    · rw [if_pos h1]
      apply ih
      rcases h with ⟨c, hc, hg⟩ | hp
      · rcases List.mem_cons.mp hc with rfl | hc2
        · rw [goodChar, h1] at hg
          simp at hg
        · exact Or.inl ⟨c, hc2, hg⟩
      · exact Or.inr hp
    · rw [if_neg h1]
      by_cases h2 : pend.isEmpty = true
      · rw [if_pos h2]
        apply ih
        rcases h with ⟨c, hc, hg⟩ | ⟨c, hc, hg⟩
        · rcases List.mem_cons.mp hc with rfl | hc2
          · exact Or.inr ⟨c, List.mem_cons_self c piece, hg⟩
          · exact Or.inl ⟨c, hc2, hg⟩
        · exact Or.inr ⟨c, List.mem_cons_of_mem a hc, hg⟩
      · rw [if_neg h2]
        by_cases h3 : pyIsSpace a = true
        · rw [if_pos h3]
          rcases h with ⟨c, hc, hg⟩ | ⟨c, hc, hg⟩
          · rcases List.mem_cons.mp hc with rfl | hc2
            · rw [goodChar, h3] at hg
              simp at hg
            · obtain ⟨p, hp, hgood⟩ := ih [] [] (Or.inl ⟨c, hc2, hg⟩)
              exact ⟨p, List.mem_cons_of_mem _ hp, hgood⟩
          · exact ⟨piece.reverse, List.mem_cons_self _ _, c, List.mem_reverse.mpr hc, hg⟩
        · rw [if_neg h3]
          apply ih
          rcases h with ⟨c, hc, hg⟩ | ⟨c, hc, hg⟩
          · rcases List.mem_cons.mp hc with rfl | hc2
            · exact Or.inr ⟨c, List.mem_cons_self _ _, hg⟩
            · exact Or.inl ⟨c, hc2, hg⟩
          · exact Or.inr ⟨c, List.mem_cons_of_mem a
              (List.mem_append.mpr (Or.inr hc)), hg⟩

theorem split_sentences_ne_nil {t : List Char} (h : tokenize_words t ≠ []) :
    split_sentences t ≠ [] := by
  obtain ⟨c, hc, hw⟩ := exists_wordChar_of_tokens h
  have hsp := wordRE_not_space hw
  have hg : goodChar c = true := by
    rw [goodChar, hsp, wordRE_not_punct hw]
    rfl
  have hcs : c ∈ stripL t := mem_stripL_of_mem hc hsp
  obtain ⟨p, hp, d, hd, hgd⟩ := sentGo_good (stripL t) [] [] (Or.inl ⟨c, hcs, hg⟩)
  have hdns : pyIsSpace d = false := by
    rw [goodChar, Bool.and_eq_true, Bool.not_eq_true'] at hgd
    exact hgd.1
  have hds : d ∈ stripL p := mem_stripL_of_mem hd hdns
  have hne : (stripL p).isEmpty = false := by
    simp [List.isEmpty_iff]
    exact List.ne_nil_of_mem hds
  intro hnil
  have hmem : stripL p ∈ ((sentGo (stripL t) [] []).map stripL).filter
      (fun q => !q.isEmpty) :=
    List.mem_filter.mpr ⟨List.mem_map_of_mem stripL hp, by simp [hne]⟩
  rw [split_sentences] at hnil
  rw [hnil] at hmem
  cases hmem

/-- C10: in every result of `analyze`, a positive word count forces a
    positive sentence count: a text with a word token always yields at
    least one sentence. -/
theorem claim_c10_words_imply_sentences (c t r mt md : String) :
    0 < ((analyze? c t r mt md).getD emptyResult).stats.word_count →
    0 < ((analyze? c t r mt md).getD emptyResult).stats.sentence_count := by
  obtain ⟨fv, hf⟩ := flesch?_isSome (tokenize_words (normalize_text c.data))
    (split_sentences (normalize_text c.data))
  obtain ⟨⟨kw, fl⟩, hk⟩ := km_isSome (tokenize_words (normalize_text c.data)) t.data r.data
  obtain ⟨sv, hs⟩ := ms_isSome c.data (tokenize_words (normalize_text c.data))
    (split_sentences (normalize_text c.data)) (extract_headings c.data) kw fl mt.data md.data
  rw [analyze?]
  simp only [qdiv?_eq_some
      (natCast_max_ne_zero (split_sentences (normalize_text c.data)).length),
    Option.some_bind, hf, hk]
  simp [hs]
  intro h
  exact List.length_pos.mpr
    (split_sentences_ne_nil (List.ne_nil_of_length_pos h))

/-- Witness for C10: a concrete one-word document. -/
theorem claim_c10_witness :
    0 < ((analyze? "Hi" "" "" "" "").getD emptyResult).stats.sentence_count :=
  claim_c10_words_imply_sentences "Hi" "" "" "" "" (by with_unfolding_all decide)

/-- C8: for a 50-word document with no headings, empty target keyword and
    empty meta title/description, the suggestions contain the add-depth,
    add-H1, add-H2s, add-target-keyword, add-meta-title and
    add-meta-description messages, in that relative order. -/
theorem claim_c8_suggestion_order
    (text : List Char) (words sentences : List (List Char))
    (headings : List (String × Nat)) (kw : KW) (fl : KWFlags) (mt mdd : List Char)
    (hw : words.length = 50)
    (hh1 : dget headings "h1" = 0) (hh2 : dget headings "h2" = 0)
    (ht : kw.target_keyword = [])
    (hmt : stripL mt = []) (hmd : stripL mdd = []) :
    ∀ l, make_suggestions? text words sentences headings kw fl mt mdd = some l →
      List.Sublist [msgDepth, msgAddH1, msgAddH2, msgAddTarget, msgAddTitle, msgAddDesc] l := by
  intro l hl
  rw [make_suggestions?] at hl
  rw [hw, hh1, hh2, ht, hmt, hmd] at hl
  by_cases hsc : 0 < sentences.length
  · rw [if_pos hsc, qdiv?_eq_some (natCast_pos_ne_zero hsc)] at hl
    change some _ = some l at hl
    rw [Option.some.injEq] at hl
    subst hl
    simp
  · rw [if_neg hsc] at hl
    change some _ = some l at hl
    rw [Option.some.injEq] at hl
    subst hl
    simp

/-- Witness for C8: a concrete 50-word, one-sentence input with no headings
    and empty metadata. -/
theorem claim_c8_witness :
    List.Sublist [msgDepth, msgAddH1, msgAddH2, msgAddTarget, msgAddTitle, msgAddDesc]
      [msgDepth, msgShorten, msgAddH1, msgAddH2, msgAddTarget, msgAddTitle, msgAddDesc] :=
  claim_c8_suggestion_order [] (List.replicate 50 "a".data) ["x".data] []
    ⟨[], 0, 0, [], [], []⟩ ⟨false, false, false⟩ [] []
    (by simp) rfl rfl rfl rfl rfl
    [msgDepth, msgShorten, msgAddH1, msgAddH2, msgAddTarget, msgAddTitle, msgAddDesc]
    (by with_unfolding_all rfl)

/-- C1: the end-to-end scenario of the spec: word count 10, one H1, target
    count 1, related counts both 0, and the suggestions contain the
    add-meta-title, add-meta-description and short-document messages. -/
theorem claim_c1_end_to_end :
    (analyze? "# My Title\n\nThis is a test. It has two sentences." "test"
        "sentence, example" "" "").map
      (fun r => (r.stats.word_count, dget r.headings "h1", r.keywords.target_count,
                 r.keywords.related_counts,
                 r.suggestions.contains msgAddTitle, r.suggestions.contains msgAddDesc,
                 r.suggestions.contains msgDepth)) =
    some (10, 1, 1, [("sentence".data, 0), ("example".data, 0)], true, true, true) := by
  with_unfolding_all rfl

theorem collGo_true_head {cs : List Char} {d : Char} {rest : List Char}
    (h : collGo true cs = d :: rest) : pyIsSpace d = false := by
  induction cs generalizing d rest with
  | nil => cases h
  | cons a as ih =>
    rw [collGo] at h
    by_cases ha : pyIsSpace a = true
    · rw [if_pos ha] at h
      exact ih h
    · rw [if_neg ha] at h
      cases h
      exact Bool.not_eq_true _ ▸ (by simpa using ha)

theorem collapsedB_collGo : ∀ (l : List Char) (b : Bool), collapsedB (collGo b l) = true := by
  intro l
  induction l with
  | nil => intro b; rfl
  | cons c cs ih =>
    intro b
    rw [collGo]
    by_cases hc : pyIsSpace c = true
    · rw [if_pos hc]
      cases b
      · simp only [Bool.false_eq_true, if_false]
        rw [collapsedB]
        refine (Bool.and_eq_true _ _).mpr ⟨(Bool.and_eq_true _ _).mpr ⟨by decide, ?_⟩, ih true⟩
        cases hcs : collGo true cs with
        | nil => rfl
        | cons d rest =>
          rw [noAdjHead, collGo_true_head hcs]
          decide
      · simp only [if_true]
        exact ih true
    · rw [if_neg hc]
      rw [collapsedB]
      refine (Bool.and_eq_true _ _).mpr ⟨(Bool.and_eq_true _ _).mpr ⟨?_, ?_⟩, ih false⟩
      · rw [okc]
        simp [hc]
      · cases collGo false cs with
        | nil => rfl
        | cons d rest =>
          rw [noAdjHead]
          simp [hc]

theorem collGo_id_of_collapsed :
    ∀ l : List Char, collapsedB l = true →
      collGo false l = l ∧
        ((∀ d rest, l = d :: rest → pyIsSpace d = false) → collGo true l = l) := by
  intro l
  induction l with
  | nil => exact fun _ => ⟨rfl, fun _ => rfl⟩
  | cons c cs ih =>
    intro h
    rw [collapsedB, Bool.and_eq_true, Bool.and_eq_true] at h
    obtain ⟨⟨hok, hadj⟩, hcs⟩ := h
    obtain ⟨ih1, ih2⟩ := ih hcs
    by_cases hc : pyIsSpace c = true
    · have hsp : c = ' ' := by
        rw [okc, hc] at hok
        simpa using hok
      have hcs_head : ∀ d rest, cs = d :: rest → pyIsSpace d = false := by
        intro d rest hdr
        rw [hdr, noAdjHead, hc] at hadj
        simpa using hadj
      constructor
      · rw [collGo, if_pos hc, ih2 hcs_head, hsp]
        simp
      · intro hhead
        exact absurd hc (by simp [hhead c cs rfl])
    · constructor
      · rw [collGo, if_neg hc, ih1]
      · intro _
        rw [collGo, if_neg hc, ih1]

theorem collapsedB_cons {c : Char} {cs : List Char}
    (h : collapsedB (c :: cs) = true) : collapsedB cs = true := by
  rw [collapsedB, Bool.and_eq_true] at h
  exact h.2

theorem collapsedB_append_right :
    ∀ xs ys : List Char, collapsedB (xs ++ ys) = true → collapsedB ys = true := by
  intro xs
  induction xs with
  | nil => exact fun ys h => h
  | cons c cs ih => exact fun ys h => ih ys (collapsedB_cons h)

theorem collapsedB_append_left :
    ∀ xs ys : List Char, collapsedB (xs ++ ys) = true → collapsedB xs = true := by
  intro xs
  induction xs with
  | nil => intro ys _; rfl
  | cons c cs ih =>
    intro ys h
    rw [List.cons_append, collapsedB, Bool.and_eq_true, Bool.and_eq_true] at h
    obtain ⟨⟨hok, hadj⟩, htail⟩ := h
    rw [collapsedB, Bool.and_eq_true, Bool.and_eq_true]
    refine ⟨⟨hok, ?_⟩, ih ys htail⟩
    cases cs with
    | nil => rfl
    | cons d rest => exact hadj

theorem dropWhile_head_false {p : Char → Bool} :
    ∀ {l : List Char} {d : Char} {rest : List Char},
      l.dropWhile p = d :: rest → p d = false := by
  intro l
  induction l with
  | nil => intro d rest h; cases h
  | cons a as ih =>
    intro d rest h
    rw [List.dropWhile_cons] at h
    split at h
    · exact ih h
    · rename_i h2
      cases h
      simpa using h2

theorem dropWhile_idem (p : Char → Bool) (l : List Char) :
    (l.dropWhile p).dropWhile p = l.dropWhile p := by
  cases h : l.dropWhile p with
  | nil => rfl
  | cons d rest =>
    rw [List.dropWhile_cons, dropWhile_head_false h]
    simp

theorem backdrop_decomp (p : Char → Bool) (m : List Char) :
    m = (m.reverse.dropWhile p).reverse ++ (m.reverse.takeWhile p).reverse := by
  conv_lhs => rw [← m.reverse_reverse]
  conv_lhs => rw [← List.takeWhile_append_dropWhile (p := p) (l := m.reverse)]
  rw [List.reverse_append]

theorem collapsedB_stripL {l : List Char} (h : collapsedB l = true) :
    collapsedB (stripL l) = true := by
  have h1 : collapsedB (l.dropWhile pyIsSpace) = true := by
    have hd := List.takeWhile_append_dropWhile (p := pyIsSpace) (l := l)
    exact collapsedB_append_right _ _ (by rw [hd]; exact h)
  rw [stripL]
  exact collapsedB_append_left _ _
    (by rw [← backdrop_decomp pyIsSpace (l.dropWhile pyIsSpace)]; exact h1)

theorem stripL_idem (l : List Char) : stripL (stripL l) = stripL l := by
  have hfront : (stripL l).dropWhile pyIsSpace = stripL l := by
    cases h : stripL l with
    | nil => rfl
    | cons d rest =>
      have hm : l.dropWhile pyIsSpace = d :: (rest ++
          ((l.dropWhile pyIsSpace).reverse.takeWhile pyIsSpace).reverse) := by
        conv_lhs => rw [backdrop_decomp pyIsSpace (l.dropWhile pyIsSpace)]
        rw [show ((l.dropWhile pyIsSpace).reverse.dropWhile pyIsSpace).reverse
            = stripL l from rfl, h]
        rfl
      rw [List.dropWhile_cons, dropWhile_head_false hm]
      simp
  have hback : (stripL l).reverse.dropWhile pyIsSpace = (stripL l).reverse := by
    rw [stripL, List.reverse_reverse]
    exact dropWhile_idem pyIsSpace _
  rw [stripL, hfront, hback, List.reverse_reverse]

theorem repQ_not_smart (c : Char) : isSmart (repQchar c) = false := by
  rw [repQchar]
  by_cases h1 : c = '\u2019'
  · rw [if_pos h1]; decide
  · rw [if_neg h1]
    by_cases h2 : c = '\u201C'
    · rw [if_pos h2]; decide
    · rw [if_neg h2]
      by_cases h3 : c = '\u201D'
      · rw [if_pos h3]; decide
      · rw [if_neg h3, isSmart]
        simp [h1, h2, h3]

theorem repQ_id_of_not_smart {c : Char} (h : isSmart c = false) : repQchar c = c := by
  rw [isSmart] at h
  simp only [Bool.or_eq_false_iff, beq_eq_false_iff_ne, ne_eq] at h
  rw [repQchar, if_neg h.1.1, if_neg h.1.2, if_neg h.2]

theorem mem_collGo {c : Char} : ∀ {b : Bool} {l : List Char},
    c ∈ collGo b l → c ∈ l ∨ c = ' ' := by
  intro b l
  induction l generalizing b with
  | nil => intro h; cases h
  | cons a as ih =>
    intro h
    rw [collGo] at h
    by_cases ha : pyIsSpace a = true
    · rw [if_pos ha] at h
      cases b with
      | true =>
        simp only [if_true] at h
        rcases ih h with h2 | h2
        · exact Or.inl (List.mem_cons_of_mem a h2)
        · exact Or.inr h2
      | false =>
        simp only [Bool.false_eq_true, if_false] at h
        rcases List.mem_cons.mp h with rfl | h2
        · exact Or.inr rfl
        · rcases ih h2 with h3 | h3
          · exact Or.inl (List.mem_cons_of_mem a h3)
          · exact Or.inr h3
    · rw [if_neg ha] at h
      rcases List.mem_cons.mp h with rfl | h2
      · exact Or.inl (List.mem_cons_self _ _)
      · rcases ih h2 with h3 | h3
        · exact Or.inl (List.mem_cons_of_mem a h3)
        · exact Or.inr h3

theorem mem_of_mem_stripL {c : Char} {l : List Char} (h : c ∈ stripL l) : c ∈ l := by
  rw [stripL] at h
  have h1 : c ∈ (l.dropWhile pyIsSpace).reverse.dropWhile pyIsSpace :=
    List.mem_reverse.mp h
  have h2 : c ∈ (l.dropWhile pyIsSpace).reverse := by
    have hd := List.takeWhile_append_dropWhile (p := pyIsSpace)
      (l := (l.dropWhile pyIsSpace).reverse)
    rw [← hd]
    exact List.mem_append.mpr (Or.inr h1)
  have h3 : c ∈ l.dropWhile pyIsSpace := List.mem_reverse.mp h2
  have hd2 := List.takeWhile_append_dropWhile (p := pyIsSpace) (l := l)
  rw [← hd2]
  exact List.mem_append.mpr (Or.inr h3)

/-- C4: `normalize_text` is idempotent. -/
theorem claim_c4_normalize_idempotent (s : List Char) :
    normalize_text (normalize_text s) = normalize_text s := by
  have hns : ∀ c ∈ normalize_text s, isSmart c = false := by
    intro c hc
    rw [normalize_text] at hc
    have hc2 : c ∈ collGo false (s.map repQchar) := mem_of_mem_stripL hc
    rcases mem_collGo hc2 with hcm | rfl
    · obtain ⟨d, _, rfl⟩ := List.mem_map.mp hcm
      exact repQ_not_smart d
    · decide
  have h1 : (normalize_text s).map repQchar = normalize_text s := by
    rw [List.map_congr_left fun c hc => repQ_id_of_not_smart (hns c hc), List.map_id']
  have h2 : collapsedB (normalize_text s) = true := by
    rw [normalize_text]
    exact collapsedB_stripL (collapsedB_collGo _ _)
  have h3 : collGo false (normalize_text s) = normalize_text s :=
    (collGo_id_of_collapsed _ h2).1
  conv_lhs => rw [normalize_text, h1, h3]
  conv_lhs => rw [normalize_text]
  exact stripL_idem _

theorem dget_cbumpBy [DecidableEq α] (c : List (α × Nat)) (w k : α) (v : Nat) :
    dget (cbumpBy c w v) k = dget c k + if w = k then v else 0 := by
  induction c with
  | nil =>
    by_cases h : w = k <;> simp [cbumpBy, dget, h]
  | cons p rest ih =>
    obtain ⟨a, b⟩ := p
    rw [cbumpBy]
    by_cases haw : a = w
    · subst haw
      by_cases hak : a = k <;> simp [dget, hak]
    · have hwk : a = k → w ≠ k := fun hk he => haw (by rw [hk, he])
      by_cases hak : a = k
      · subst hak
        simp [dget, haw, hwk rfl]
      · simp [dget, haw, hak, ih]

theorem entrySum_cbump [DecidableEq α] (c : List (α × Nat)) (w k : α) :
    entrySum (cbump c w) k = entrySum c k + if w = k then 1 else 0 := by
  induction c with
  | nil =>
    by_cases h : w = k <;> simp [cbump, entrySum, h]
  | cons p rest ih =>
    obtain ⟨a, b⟩ := p
    rw [cbump]
    by_cases haw : a = w
    · subst haw
      by_cases hak : a = k <;> simp [entrySum, hak] <;> omega
    · have hwk : a = k → w ≠ k := fun hk he => haw (by rw [hk, he])
      by_cases hak : a = k
      · subst hak
        simp [entrySum, haw, hwk rfl] at ih ⊢
        exact ih
      · simp [entrySum, haw, hak] at ih ⊢
        omega

theorem dget_cupdate [DecidableEq α] :
    ∀ (other self : List (α × Nat)) (k : α),
      dget (cupdate self other) k = dget self k + entrySum other k := by
  intro other
  induction other with
  | nil =>
    intro self k
    simp [cupdate, entrySum]
  | cons p rest ih =>
    intro self k
    rw [cupdate, List.foldl_cons]
    have := ih (cbumpBy self p.1 p.2) k
    rw [cupdate] at this
    rw [this, dget_cbumpBy]
    simp [entrySum]
    omega

theorem entrySum_md_counts (t : List Char) (k : String) :
    entrySum (md_counts t) k =
      (splitlines t).countP (fun line => mdKey line == some k) := by
  rw [md_counts]
  suffices h : ∀ (lines : List (List Char)) (c0 : List (String × Nat)),
      entrySum (lines.foldl
        (fun c line => match mdKey line with | some k2 => cbump c k2 | none => c) c0) k =
      entrySum c0 k + lines.countP (fun line => mdKey line == some k) by
    simpa [entrySum] using h (splitlines t) []
  intro lines
  induction lines with
  | nil => intro c0; simp
  | cons line rest ih =>
    intro c0
    rw [List.foldl_cons, List.countP_cons]
    cases hm : mdKey line with
    | none =>
      rw [ih]
      rfl
    | some k2 =>
      rw [ih, entrySum_cbump]
      by_cases hk : k2 = k
      · subst hk
        simp [hm]
        omega
      · simp [hm, hk]

theorem html_counts_eq (t : List Char) :
    html_counts t = [(hkey 1, htmlCount 1 t), (hkey 2, htmlCount 2 t),
      (hkey 3, htmlCount 3 t), (hkey 4, htmlCount 4 t), (hkey 5, htmlCount 5 t),
      (hkey 6, htmlCount 6 t)] := by
  rfl

theorem mdLevel_bounds {line : List Char} {n : Nat} (h : mdLevel line = some n) :
    1 ≤ n ∧ n ≤ 6 := by
  rw [mdLevel] at h
  split at h
  · rename_i hcond
    cases h
    exact ⟨hcond.1, hcond.2.1⟩
  · cases h

theorem hkey_ne : ∀ n ≤ 6, ∀ j ≤ 6, n ≠ j → hkey n ≠ hkey j := by
  decide

theorem mdKey_eq_level {j : Nat} (h1 : 1 ≤ j) (h6 : j ≤ 6) (line : List Char) :
    (mdKey line == some (hkey j)) = (mdLevel line == some j) := by
  rw [mdKey]
  cases hml : mdLevel line with
  | none => rfl
  | some n =>
    have hb := mdLevel_bounds hml
    by_cases hnj : n = j
    · subst hnj
      simp
    · have hne : hkey n ≠ hkey j := hkey_ne n hb.2 j h6 hnj
      simp [hnj, hne]

/-- C6: `extract_headings` always returns all six keys h1..h6, each value
    being the markdown-detected line count plus the tag-detected count for
    that level; the two spec examples and a mixed-syntax document evaluate
    as claimed. -/
theorem claim_c6_extract_headings :
    (∀ t : List Char, extract_headings t =
      (List.range 6).map (fun i =>
        (hkey (i + 1), mdDirect t (i + 1) + htmlCount (i + 1) t))) ∧
    extract_headings "# Title\n## Sub".data =
      [("h1", 1), ("h2", 1), ("h3", 0), ("h4", 0), ("h5", 0), ("h6", 0)] ∧
    extract_headings "<h2>X</h2><h2>Y</h2>".data =
      [("h1", 0), ("h2", 2), ("h3", 0), ("h4", 0), ("h5", 0), ("h6", 0)] ∧
    dget (extract_headings "# A\n<h1>B</h1>".data) "h1" = 2 := by
  refine ⟨?_, by decide, by decide, by decide⟩
  intro t
  rw [extract_headings]
  apply List.map_congr_left
  intro i hi
  have hi6 : i < 6 := List.mem_range.mp hi
  have hj1 : 1 ≤ i + 1 := Nat.le_add_left 1 i
  have hj6 : i + 1 ≤ 6 := hi6
  refine Prod.ext rfl ?_
  rw [dget_cupdate, dget_cupdate]
  rw [entrySum_md_counts]
  rw [List.countP_congr fun line _ => by rw [mdKey_eq_level hj1 hj6 line]]
  rw [html_counts_eq]
  simp only [dget, entrySum, List.map_cons, List.map_nil, List.sum_cons, List.sum_nil]
  rw [mdDirect]
  clear hi hj1 hj6
  interval_cases i <;> simp [show hkey 1 ≠ hkey 2 from by decide,
    show hkey 1 ≠ hkey 3 from by decide,
    show hkey 1 ≠ hkey 4 from by decide,
    show hkey 1 ≠ hkey 5 from by decide,
    show hkey 1 ≠ hkey 6 from by decide,
    show hkey 2 ≠ hkey 1 from by decide,
    show hkey 2 ≠ hkey 3 from by decide,
    show hkey 2 ≠ hkey 4 from by decide,
    show hkey 2 ≠ hkey 5 from by decide,
    show hkey 2 ≠ hkey 6 from by decide,
    show hkey 3 ≠ hkey 1 from by decide,
    show hkey 3 ≠ hkey 2 from by decide,
    show hkey 3 ≠ hkey 4 from by decide,
    show hkey 3 ≠ hkey 5 from by decide,
    show hkey 3 ≠ hkey 6 from by decide,
    show hkey 4 ≠ hkey 1 from by decide,
    show hkey 4 ≠ hkey 2 from by decide,
    show hkey 4 ≠ hkey 3 from by decide,
    show hkey 4 ≠ hkey 5 from by decide,
    show hkey 4 ≠ hkey 6 from by decide,
    show hkey 5 ≠ hkey 1 from by decide,
    show hkey 5 ≠ hkey 2 from by decide,
    show hkey 5 ≠ hkey 3 from by decide,
    show hkey 5 ≠ hkey 4 from by decide,
    show hkey 5 ≠ hkey 6 from by decide,
    show hkey 6 ≠ hkey 1 from by decide,
    show hkey 6 ≠ hkey 2 from by decide,
    show hkey 6 ≠ hkey 3 from by decide,
    show hkey 6 ≠ hkey 4 from by decide,
    show hkey 6 ≠ hkey 5 from by decide]

end SEO
